import Mathlib

/-!
Shallow embedding of the ForgeBot notification/completion-tracking core
(`forge_notifications.py`, `forge_cog.py`, `skyblock.py`, `registration_cog.py`).

Numeric values (Python ints/floats holding millisecond timestamps, durations
and percentages) are modelled as `ℚ`; the arithmetic in the source is the
plain field arithmetic written below.  JSON documents read from disk are
modelled by the inductive `JValue`; Python `dict`s appear as insertion-ordered
association lists, mirroring CPython's ordered dicts.
-/

namespace ForgeBot

attribute [local semireducible] Rat.add Rat.mul Rat.sub Rat.ofScientific Rat.inv

/-- A JSON value as produced by `json.load`.  Python `bool` is a subclass of
`int`, which matters for `isinstance(x, (int, float))` checks; `asNum` below
reflects that. -/
inductive JValue where
  | null : JValue
  | bool (b : Bool) : JValue
  | num (q : ℚ) : JValue
  | str (s : String) : JValue
  | arr (xs : List JValue) : JValue
  | obj (kvs : List (String × JValue)) : JValue

/-- The numeric value of a Python object that passes
`isinstance(x, (int, float))`; `True`/`False` count as `1`/`0`. -/
def JValue.asNum : JValue → Option ℚ
  | .num q => some q
  | .bool b => some (if b then 1 else 0)
  | _ => none

/-- From `constants.py`: `ENCHANTED_CLOCK_REDUCTION_MS = 60 * 60 * 1000`. -/
def ENCHANTED_CLOCK_REDUCTION_MS : ℚ := 60 * 60 * 1000

/-- From `forge_notifications.py`: `HISTORY_CLEANUP_DAYS = 7`. -/
def HISTORY_CLEANUP_DAYS : ℚ := 7

/-- The table `tier_percentages` from `calculate_quick_forge_reduction`
(identical in `forge_notifications.py` and `forge_cog.py`). -/
def tier_percentages : List ℚ :=
  [10.5, 11.0, 11.5, 12.0, 12.5, 13.0, 13.5, 14.0, 14.5, 15.0,
   15.5, 16.0, 16.5, 17.0, 17.5, 18.0, 18.5, 19.0, 19.5]

/-- Embedding of `calculate_quick_forge_reduction(forge_time_level)`: `0.0` for `None` or
level `< 1`; `30.0` (the `max_reduction`) for level `>= 20`; the table entry
at `level - 1` for `1 <= level <= 19`; defensively `0.0` otherwise. -/
def calculate_quick_forge_reduction : Option ℤ → ℚ
  | none => 0
  | some level =>
    if level < 1 then 0
    else if 20 ≤ level then 30
    else if 1 ≤ level ∧ level ≤ 19 then tier_percentages.getD (level - 1).toNat 0
    else 0

/-- The per-slot end-time computation of
`forge_notifications.check_forge_completions` (lines 378-383) and equivalently
`forge_cog.check_forge_completions` (lines 627-641):
`effective_duration_ms = base_duration_ms * (1 - time_reduction_percent / 100)`;
`adjusted_end_time_ms = start + effective_duration` and, when the Enchanted
Clock is active, `start + max(0, effective_duration - ENCHANTED_CLOCK_REDUCTION_MS)`. -/
def adjustedEndTime (startMs baseDurationMs reductionPercent : ℚ) (clockActive : Bool) : ℚ :=
  let effectiveDurationMs := baseDurationMs * (1 - reductionPercent / 100)
  match clockActive with
  | true => startMs + max 0 (effectiveDurationMs - ENCHANTED_CLOCK_REDUCTION_MS)
  | false => startMs + effectiveDurationMs

/-! ## Enchanted Clock usage ledger (`forge_cog.py`) -/

/-- The `isinstance(x, dict)` check: the entries when the value is a dict. -/
def jAsObj : JValue → Option (List (String × JValue))
  | .obj kvs => some kvs
  | _ => none

/-- The `end_timestamp` of a clock-usage record as `is_clock_used` and
`cleanup_expired_clock_entries` read it: present on a `dict` under key
`"end_timestamp"` with an `isinstance(..., (int, float))` value. -/
def recordEndTs : JValue → Option ℚ
  | .obj kvs => (kvs.lookup "end_timestamp").bind JValue.asNum
  | _ => none

/-- Structural validity of a clock-usage record as checked by
`cleanup_expired_clock_entries` (`is_invalid` at lines 348-354): a `dict`
carrying a numeric `"end_timestamp"` and a string `"profile_name"`. -/
def recordValid : JValue → Bool
  | .obj kvs =>
      ((kvs.lookup "end_timestamp").bind JValue.asNum).isSome &&
      (match kvs.lookup "profile_name" with
       | some (.str _) => true
       | _ => false)
  | _ => false

/-- A record survives the cleanup pass iff it is structurally valid and not
yet expired (`now < end_timestamp`). -/
def recordActive (nowMs : ℚ) (v : JValue) : Bool :=
  recordValid v &&
  (match recordEndTs v with
   | some e => decide (nowMs < e)
   | none => false)

/-- Embedding of `ForgeCog.is_clock_used(uuid, profile_internal_id)`: looks the record up
under `clock_usage[uuid][profile_id]`; if it is a `dict` with a numeric
`end_timestamp`, returns `now < end_timestamp`, else `False`.  (In memory the
per-uuid values are always dicts; a non-dict value is modelled as `false`.) -/
def is_clock_used (nowMs : ℚ) (clockUsage : List (String × JValue)) (uuid profileId : String) : Bool :=
  match (clockUsage.lookup uuid).bind jAsObj with
  | some profiles =>
    match profiles.lookup profileId with
    | some p =>
      match recordEndTs p with
      | some e => decide (nowMs < e)
      | none => false
    | none => false
  | none => false

/-- Embedding of `ForgeCog.cleanup_expired_clock_entries`: drops per-uuid values that are
not dicts, drops records that are invalid or expired, and drops uuid keys
whose record dict became (or was) empty. -/
def cleanup_expired_clock_entries (nowMs : ℚ) (clockUsage : List (String × JValue)) :
    List (String × JValue) :=
  clockUsage.filterMap fun e =>
    match jAsObj e.2 with
    | some profiles =>
        let kept := profiles.filter fun q => recordActive nowMs q.2
        if kept.isEmpty then none else some (e.1, .obj kept)
    | none => none

/-- The `modified` flag of `cleanup_expired_clock_entries`: set whenever a
non-dict per-uuid value is removed, a record is removed, or an emptied uuid
key is removed; `save_clock_usage()` runs iff it is set. -/
def clockCleanupModified (nowMs : ℚ) (clockUsage : List (String × JValue)) : Bool :=
  clockUsage.any fun e =>
    match jAsObj e.2 with
    | some profiles =>
        profiles.any (fun q => !(recordActive nowMs q.2)) ||
        (profiles.filter fun q => recordActive nowMs q.2).isEmpty
    | none => true

/-- Convenience accessor for stating properties: the record stored under
`clockUsage[uuid][profileId]` when the per-uuid value is a dict. -/
def lookupRecord (clockUsage : List (String × JValue)) (uuid profileId : String) : Option JValue :=
  match (clockUsage.lookup uuid).bind jAsObj with
  | some profiles => profiles.lookup profileId
  | none => none

/-! ## Notification history store (`forge_notifications.py`) -/

/-- What `open` + `json.load` yields for a store file: the file may be
missing, unparsable, or parse to a `JValue`. -/
inductive RawDoc where
  | missing : RawDoc
  | unparsable : RawDoc
  | parsed (v : JValue) : RawDoc

/-- Python `tuple(x)` on a loaded JSON value: lists iterate to their
elements, strings to their one-character strings, dicts to their keys;
`None`/numbers/booleans are not iterable (`TypeError`). -/
def pyIter : JValue → Option (List JValue)
  | .arr xs => some xs
  | .str s => some (s.data.map fun c => .str (String.singleton c))
  | .obj kvs => some (kvs.map fun kv => .str kv.1)
  | _ => none

/-- Whether a value is hashable (adding a tuple containing a list or dict to
a `set` raises `TypeError`). -/
def pyHashable : JValue → Bool
  | .arr _ => false
  | .obj _ => false
  | _ => true

/-- Python `tuple(item)` applied to every entry of the loaded list; the first
non-iterable entry raises, making the whole conversion fail. -/
def tupleAll : List JValue → Option (List (List JValue))
  | [] => some []
  | x :: xs =>
    match pyIter x, tupleAll xs with
    | some t, some ts => some (t :: ts)
    | _, _ => none

/-- Embedding of `ForgeNotificationManager.load_history`: a missing file, unparsable JSON,
a non-list top level, a non-iterable entry, or an unhashable tuple all leave
the history empty (the last two via the broad `except` clause); otherwise the
history is the set of entry tuples.  (The Python `set` deduplicates; we keep
the list, which agrees on membership.) -/
def load_history : RawDoc → List (List JValue)
  | .missing => []
  | .unparsable => []
  | .parsed (.arr xs) =>
      match tupleAll xs with
      | some ts => if ts.all fun t => t.all pyHashable then ts else []
      | none => []
  | .parsed _ => []

/-- The retention cutoff of `cleanup_history`:
`current_time_ms - HISTORY_CLEANUP_DAYS * 24 * 60 * 60 * 1000`. -/
def cleanupThreshold (nowMs : ℚ) : ℚ :=
  nowMs - HISTORY_CLEANUP_DAYS * 24 * 60 * 60 * 1000

/-- The element `item_tuple[3]` of a history entry, when it exists and is numeric
(otherwise the comparison `item_tuple[3] >= cleanup_threshold_ms` raises). -/
def histEntryEnd (t : List JValue) : Option ℚ :=
  (t.get? 3).bind JValue.asNum

/-- Embedding of `ForgeNotificationManager.cleanup_history`: returns early on an empty
history; otherwise keeps exactly the entries with `item_tuple[3] >=
cleanup_threshold_ms`.  The set comprehension evaluates `item_tuple[3]` for
every entry, so an entry shorter than 4 elements (`IndexError`) or with a
non-numeric fourth element (`TypeError`) makes the whole call raise,
modelled as `none`. -/
def cleanup_history (nowMs : ℚ) (hist : List (List JValue)) :
    Option (List (List JValue)) :=
  if hist.isEmpty then some hist
  else if hist.all fun t => (histEntryEnd t).isSome then
    some (hist.filter fun t =>
      match histEntryEnd t with
      | some e => decide (cleanupThreshold nowMs ≤ e)
      | none => false)
  else none

/-! ## Completion scanner (`forge_notifications.check_forge_completions`) -/

/-- The CompletionEvent identity tuple
`(discord_user_id_str, profile_internal_id, start_time_ms, adjusted_end_time_ms)`. -/
abbrev Ident := String × String × ℚ × ℚ

/-- One slot entry of `forge_processes[forge_type][slot]` as the scanner
reads it: `item_api_data.get("id")` and `item_api_data.get("startTime")`. -/
structure ApiSlot where
  id : Option String
  startTime : Option ℚ
deriving DecidableEq

/-- One entry of `forge_items.json`: `name` and `duration` may be absent. -/
structure ForgeItemInfo where
  name : Option String
  duration : Option ℚ
deriving DecidableEq

/-- One SkyBlock profile as the scanner reads it for the scanned account:
`cute_name`, `profile_id`, the member's `forge.forge_processes` mapping, and
the member's `mining_core.nodes.forge_time` perk tier. -/
structure ProfileData where
  cuteName : Option String
  profileId : Option String
  forgeTimeLevel : Option ℤ
  forgeProcesses : List (String × List (String × ApiSlot))
deriving DecidableEq

/-- The parsed body returned by `get_player_profiles` on success: the
`success` flag and the `profiles` list. -/
structure ProfilesResponse where
  success : Bool
  profiles : List ProfileData
deriving DecidableEq

/-- One registered account entry (only its `uuid` is read by the scanner). -/
structure AccountEntry where
  uuid : Option String
deriving DecidableEq

/-- A `READY_NEW` item as appended to `user_ready_items_now`
(lines 397-406 of `forge_notifications.py`). -/
structure ReadyItem where
  profileName : String
  profileInternalId : String
  itemName : String
  slotType : String
  slotNumber : String
  startTimeMs : ℚ
  adjustedEndTimeMs : ℚ
  itemId : String
deriving DecidableEq

/-- The CompletionEvent tuple of a ready item for a given user, as built both
at classification time (line 389) and at commit time (lines 218-223). -/
def mkIdent (userIdStr : String) (it : ReadyItem) : Ident :=
  (userIdStr, it.profileInternalId, it.startTimeMs, it.adjustedEndTimeMs)

/-- Classification of one forge slot on one poll. -/
inductive SlotResult where
  | skipped : SlotResult
  | readyNew (item : ReadyItem) : SlotResult
  | readyAlreadyNotified : SlotResult
  | inProgress : SlotResult
deriving DecidableEq

/-- The per-slot logic of lines 363-408: skip when `startTime` or `id` is
missing or the item has no numeric duration in `forge_items.json`; otherwise
compute the adjusted end time under the profile's buffs and classify against
`current_time_ms` and the notification history. -/
def classifySlot (nowMs : ℚ) (userIdStr profileId profileName : String)
    (reductionPercent : ℚ) (clockActive : Bool) (hist : List Ident)
    (forgeItemsData : List (String × ForgeItemInfo))
    (forgeTypeKey slotKey : String) (slot : ApiSlot) : SlotResult :=
  match slot.startTime, slot.id with
  | some startMs, some itemId =>
    match forgeItemsData.lookup itemId with
    | some info =>
      match info.duration with
      | some dur =>
        let itemName := info.name.getD itemId
        let adjEnd := adjustedEndTime startMs dur reductionPercent clockActive
        if adjEnd ≤ nowMs then
          if (userIdStr, profileId, startMs, adjEnd) ∈ hist then .readyAlreadyNotified
          else .readyNew ⟨profileName, profileId, itemName, forgeTypeKey, slotKey,
                          startMs, adjEnd, itemId⟩
        else .inProgress
      | none => .skipped
    | none => .skipped
  | _, _ => .skipped

/-- The `READY_NEW` contribution of one slot. -/
def readyList : SlotResult → List ReadyItem
  | .readyNew it => [it]
  | _ => []

/-- The scan of one profile (lines 335-417, restricted to the `READY_NEW`
output): a profile with a missing `profile_id` is skipped entirely; otherwise
the perk reduction and clock state are resolved once and every slot of every
forge type is classified. -/
def scanProfileReady (nowMs : ℚ) (userIdStr : String) (hist : List Ident)
    (forgeItemsData : List (String × ForgeItemInfo))
    (clockUsage : List (String × JValue)) (mcUuid : String)
    (p : ProfileData) : List ReadyItem :=
  match p.profileId with
  | none => []
  | some pid =>
    let reduction := calculate_quick_forge_reduction p.forgeTimeLevel
    let clockActive := is_clock_used nowMs clockUsage mcUuid pid
    p.forgeProcesses.flatMap fun ft =>
      ft.2.flatMap fun sl =>
        readyList (classifySlot nowMs userIdStr pid (p.cuteName.getD "Unknown Profile")
          reduction clockActive hist forgeItemsData ft.1 sl.1 sl.2)

/-- The scan of one registered account (lines 316-333): a missing or empty
`uuid`, a fetch that returned no data (`None`), or a response without
`success` makes the scanner `continue` to the next account.  `env` maps an
account uuid to what `get_player_profiles` returned for it (`none` for a
returned failure). -/
def scanAccountReady (nowMs : ℚ) (userIdStr : String) (hist : List Ident)
    (forgeItemsData : List (String × ForgeItemInfo))
    (clockUsage : List (String × JValue))
    (env : String → Option ProfilesResponse) (acc : AccountEntry) : List ReadyItem :=
  match acc.uuid with
  | none => []
  | some u =>
    if u = "" then []
    else
      match env u with
      | none => []
      | some resp =>
        if resp.success then
          resp.profiles.flatMap (scanProfileReady nowMs userIdStr hist forgeItemsData clockUsage u)
        else []

/-- All of one user's `READY_NEW` items across their accounts
(`user_ready_items_now`). -/
def scanUserReady (nowMs : ℚ) (userIdStr : String) (hist : List Ident)
    (forgeItemsData : List (String × ForgeItemInfo))
    (clockUsage : List (String × JValue))
    (env : String → Option ProfilesResponse) (accounts : List AccountEntry) :
    List ReadyItem :=
  accounts.flatMap (scanAccountReady nowMs userIdStr hist forgeItemsData clockUsage env)

/-- Digit run to a number, most significant first. -/
def digitsToNat (cs : List Char) : ℕ :=
  cs.foldl (fun a c => 10 * a + (c.toNat - 48)) 0

/-- Python `int(s)` on a registration user-id string (an optional sign
followed by a non-empty digit run); anything else raises `ValueError`,
making the scanner skip the user. -/
def pyParseInt (s : String) : Option ℤ :=
  match s.data with
  | [] => none
  | '-' :: rest =>
    if rest ≠ [] ∧ rest.all Char.isDigit then some (-(digitsToNat rest : ℤ)) else none
  | cs => if cs.all Char.isDigit then some (digitsToNat cs : ℤ) else none

/-- One entry of `items_ready_now_for_notification`. -/
structure UserNotification where
  userId : String
  mention : String
  readyItems : List ReadyItem
deriving DecidableEq

/-- The per-cycle scan over the reloaded registrations (lines 288-427): users
with no accounts or a non-integer Discord id are skipped; a user enters
`items_ready_now_for_notification` iff their ready list is non-empty, keyed
by their id with mention string `f"<@{int(user_id)}>"`.  (Python `int()` on
the id string is modelled by `pyParseInt`.) -/
def scanCycle (nowMs : ℚ) (hist : List Ident)
    (forgeItemsData : List (String × ForgeItemInfo))
    (clockUsage : List (String × JValue))
    (env : String → Option ProfilesResponse)
    (registrations : List (String × List AccountEntry)) : List UserNotification :=
  registrations.filterMap fun e =>
    if e.2.isEmpty then none
    else
      match pyParseInt e.1 with
      | none => none
      | some n =>
        let items := scanUserReady nowMs e.1 hist forgeItemsData clockUsage env e.2
        if items.isEmpty then none
        else some ⟨e.1, "<@" ++ toString n ++ ">", items⟩

/-! ## Notification dispatcher (`forge_notifications.py`, lines 466-506 and
`send_forge_webhook`, lines 178-237) -/

/-- Python truncating conversion `int(q)` (toward zero). -/
def pyInt (q : ℚ) : ℤ :=
  if 0 ≤ q then ⌊q⌋ else ⌈q⌉

/-- One message line per ready item (line 488-490). -/
def itemLine (it : ReadyItem) : String :=
  "- Your **" ++ it.itemName ++ "** on " ++ it.profileName ++
  " was ready <t:" ++ toString (pyInt (it.adjustedEndTimeMs / 1000)) ++
  ":R> (started <t:" ++ toString (pyInt (it.startTimeMs / 1000)) ++ ":R>)"

/-- The sort key comparison of line 474: by `profile_name` first, then by the
slot number, numerically when the slot key is all digits.  (Python raises
`TypeError` when comparing an `int` key with a `str` key; the model orders
numeric keys first in that case.) -/
def readyItemLE (a b : ReadyItem) : Bool :=
  if a.profileName = b.profileName then
    match a.slotNumber.toNat?, b.slotNumber.toNat? with
    | some x, some y => decide (x ≤ y)
    | some _, none => true
    | none, some _ => false
    | none, none => decide (a.slotNumber ≤ b.slotNumber)
  else decide (a.profileName ≤ b.profileName)

/-- Stable insertion used to model `list.sort(key=...)` (Python's sort is
stable; only the resulting multiset matters for the stated properties). -/
def insertLE {α : Type} (le : α → α → Bool) (x : α) : List α → List α
  | [] => [x]
  | y :: ys => if le x y then x :: y :: ys else y :: insertLE le x ys

/-- Sorting model for `list.sort(key=...)`. -/
def sortLE {α : Type} (le : α → α → Bool) : List α → List α
  | [] => []
  | x :: xs => insertLE le x (sortLE le xs)

/-- Python `"\n".join(lines)`. -/
def joinLines : List String → String
  | [] => ""
  | [l] => l
  | l :: ls => l ++ "\n" ++ joinLines ls

/-- The aggregated `message_lines` for one user (lines 476-490): the mention
line, the header, then one line per ready item in sorted order. -/
def messageLines (mentionString : String) (readyItems : List ReadyItem) : List String :=
  (mentionString ++ "\n") :: "Your forge items are ready:" ::
    (sortLE readyItemLE readyItems).map itemLine

/-- The outcome of the `requests.post` call inside `send_forge_webhook`. -/
inductive DeliveryOutcome where
  | response (status : ℕ) : DeliveryOutcome
  | timeout : DeliveryOutcome
  | requestException : DeliveryOutcome
  | otherException : DeliveryOutcome
deriving DecidableEq

/-- Whether the delivery confirmed success: `200 <= status_code < 300`. -/
def is2xx : DeliveryOutcome → Bool
  | .response s => decide (200 ≤ s) && decide (s < 300)
  | _ => false

/-- Python `set.add` on the in-memory history (kept as a duplicate-free list
extension; membership is what all consumers use). -/
def addIdent (i : Ident) (h : List Ident) : List Ident :=
  if i ∈ h then h else i :: h

/-- Embedding of `ForgeNotificationManager.send_forge_webhook`, as a transition on the
in-memory `notified_items_history` paired with whether `save_history()` ran:
no configured webhook URL or an empty message means no call and no change;
on a 2xx response every `ready_items_sent` tuple is added and the history is
saved (when any item was sent); on a non-2xx response, timeout, request
exception or any other exception the history is untouched and not saved. -/
def send_forge_webhook (webhookUrl : Option String) (userIdStr : String)
    (message : String) (readyItemsSent : List ReadyItem)
    (outcome : DeliveryOutcome) (hist : List Ident) : List Ident × Bool :=
  match webhookUrl with
  | none => (hist, false)
  | some _ =>
    if message = "" then (hist, false)
    else if is2xx outcome then
      (readyItemsSent.foldl (fun h it => addIdent (mkIdent userIdStr it) h) hist,
       !readyItemsSent.isEmpty)
    else (hist, false)

/-- One dispatched webhook call of the loop at lines 469-503. -/
structure WebhookCall where
  userId : String
  message : String
  itemsSent : List ReadyItem
deriving DecidableEq

/-- The dispatch loop over `items_ready_now_for_notification`: one
`send_forge_webhook` call per stored user entry (the inner `if ready_items:`
re-check of line 473 included), with the combined aggregated message. -/
def dispatchCalls (notifs : List UserNotification) : List WebhookCall :=
  notifs.filterMap fun n =>
    if n.readyItems.isEmpty then none
    else some ⟨n.userId, joinLines (messageLines n.mention n.readyItems), n.readyItems⟩

/-! ## Profile fetcher (`skyblock.get_player_profiles`) -/

/-- The outcome of one HTTP attempt inside `get_player_profiles`. -/
inductive HttpResult where
  | ok (body : ProfilesResponse) : HttpResult
  | httpError (status : ℕ) : HttpResult
  | netError : HttpResult
  | decodeError : HttpResult
deriving DecidableEq

/-- What `get_player_profiles` eventually does, given the sequence of HTTP
attempt outcomes it will observe: a parsed body, a returned `None`
(failure), or — when every provided attempt was a 429 — still inside the
sleep-60-seconds-and-retry recursion with no bound on further retries. -/
inductive FetchOutcome where
  | success (body : ProfilesResponse) : FetchOutcome
  | failure : FetchOutcome
  | stillRetrying : FetchOutcome
deriving DecidableEq

/-- Embedding of `skyblock.get_player_profiles` (lines 38-61): a 2xx body is returned; an
HTTP error returns `None` — except status 429, which sleeps 60 seconds and
recursively retries with no retry bound; network and JSON-decode errors
return `None`. -/
def get_player_profiles : List HttpResult → FetchOutcome
  | [] => .stillRetrying
  | a :: rest =>
    match a with
    | .ok body => .success body
    | .httpError s => if s = 429 then get_player_profiles rest else .failure
    | .netError => .failure
    | .decodeError => .failure

/-! ## Persistence traces (`save_*` functions) -/

/-- Primitive file-system effects of the save functions.  `open(path, "w")`
truncates the file at once, after which `json.dump` writes the document, so a
direct write is the trace `truncTarget, writeTargetDoc`; `os.replace`
atomically renames the temp file over the target. -/
inductive FsOp where
  | truncTarget : FsOp
  | writeTargetDoc : FsOp
  | truncTemp : FsOp
  | writeTempDoc : FsOp
  | renameTempOverTarget : FsOp
deriving DecidableEq

/-- Contents of the store file and its `.tmp` sibling. -/
structure FsState where
  target : String
  temp : Option String
deriving DecidableEq

/-- Effect of one primitive operation when the document being saved
serializes to `doc`. -/
def fsStep (doc : String) (s : FsState) : FsOp → FsState
  | .truncTarget => { s with target := "" }
  | .writeTargetDoc => { s with target := doc }
  | .truncTemp => { s with temp := some "" }
  | .writeTempDoc => { s with temp := some doc }
  | .renameTempOverTarget =>
    match s.temp with
    | some c => { target := c, temp := none }
    | none => s

/-- Run a trace of primitive operations. -/
def runFs (doc : String) (s : FsState) : List FsOp → FsState
  | [] => s
  | op :: ops => runFs doc (fsStep doc s op) ops

/-- Trace of `RegistrationCog.save_registrations`: write to `REGISTRATION_FILE + ".tmp"`,
then `os.replace` over the original. -/
def saveRegistrationsOps : List FsOp :=
  [.truncTemp, .writeTempDoc, .renameTempOverTarget]

/-- Trace of `ForgeCog.save_clock_usage`: write to `CLOCK_USAGE_FILE + ".tmp"`, then
`os.replace` over the original. -/
def saveClockUsageOps : List FsOp :=
  [.truncTemp, .writeTempDoc, .renameTempOverTarget]

/-- Trace of `ForgeCog.save_notifications_status`: write to `NOTIFICATIONS_FILE + ".tmp"`,
then `os.replace` over the original. -/
def saveNotificationsStatusOps : List FsOp :=
  [.truncTemp, .writeTempDoc, .renameTempOverTarget]

/-- Trace of `ForgeNotificationManager.save_history`: opens `HISTORY_FILE` itself in
write mode and dumps into it directly — no temp file, no rename. -/
def saveHistoryOps : List FsOp :=
  [.truncTarget, .writeTargetDoc]

/-- Crash safety of a save trace: whatever prefix of the trace completed
before a crash, the store file holds either the old or the new document. -/
def atomicSave (old doc : String) (ops : List FsOp) : Prop :=
  ∀ pre, pre <+: ops →
    (runFs doc ⟨old, none⟩ pre).target = old ∨ (runFs doc ⟨old, none⟩ pre).target = doc

/-! ## Sample data used by witnesses -/

/-- A concrete ready item used to instantiate theorems. -/
def sampleItem : ReadyItem :=
  ⟨"Apple", "p-1", "Gemstone Drill", "forge_1", "1", 0, 1000, "GEM_DRILL"⟩

/-! # Helper lemmas -/

theorem quickForgeTable (t : ℤ) (h1 : 1 ≤ t) (h2 : t ≤ 19) :
    calculate_quick_forge_reduction (some t) = 10.5 + 0.5 * ((t : ℚ) - 1) := by
  interval_cases t <;> decide

theorem quickForgeRange (t : Option ℤ) :
    0 ≤ calculate_quick_forge_reduction t ∧ calculate_quick_forge_reduction t ≤ 30 := by
  cases t with
  | none => norm_num [calculate_quick_forge_reduction]
  | some v =>
    by_cases hv1 : v < 1
    · simp [calculate_quick_forge_reduction, hv1]
    · by_cases hv20 : 20 ≤ v
      · simp [calculate_quick_forge_reduction, hv1, hv20]
      · have h1 : 1 ≤ v := by omega
        have h2 : v ≤ 19 := by omega
        rw [quickForgeTable v h1 h2]
        have hc1 : (1 : ℚ) ≤ (v : ℚ) := by exact_mod_cast h1
        have hc2 : (v : ℚ) ≤ 19 := by exact_mod_cast h2
        constructor <;> nlinarith

/-- Prefixes of a three-element list. -/
theorem prefix_cases3 {α : Type} {a b c : α} {pre : List α} (h : pre <+: [a, b, c]) :
    pre = [] ∨ pre = [a] ∨ pre = [a, b] ∨ pre = [a, b, c] := by
  obtain ⟨t, ht⟩ := h
  rcases pre with _ | ⟨x, _ | ⟨y, _ | ⟨z, _ | ⟨w, r⟩⟩⟩⟩
  · exact Or.inl rfl
  · injection ht with h1 h2
    subst h1
    exact Or.inr (Or.inl rfl)
  · injection ht with h1 h2
    injection h2 with h3 h4
    subst h1; subst h3
    exact Or.inr (Or.inr (Or.inl rfl))
  · injection ht with h1 h2
    injection h2 with h3 h4
    injection h4 with h5 h6
    subst h1; subst h3; subst h5
    exact Or.inr (Or.inr (Or.inr rfl))
  · have hl := congrArg List.length ht
    simp at hl

theorem atomicTempRename (old doc : String) :
    atomicSave old doc [.truncTemp, .writeTempDoc, .renameTempOverTarget] := by
  intro pre hpre
  rcases prefix_cases3 hpre with h | h | h | h <;> subst h
  · exact Or.inl rfl
  · exact Or.inl rfl
  · exact Or.inl rfl
  · exact Or.inr rfl

theorem tupleAll_eq_none {xs : List JValue} {x : JValue} (hx : x ∈ xs)
    (h : pyIter x = none) : tupleAll xs = none := by
  induction xs with
  | nil => cases hx
  | cons y ys ih =>
    rcases List.mem_cons.mp hx with rfl | hmem
    · simp [tupleAll, h]
    · cases hy : pyIter y with
      | none => simp [tupleAll, hy]
      | some t => simp [tupleAll, hy, ih hmem]

/-! # Claim theorems -/

/-- C8: `calculate_quick_forge_reduction` returns `10.5 + 0.5*(t-1)` for
integer tiers `1..19`, exactly `30.0` for tiers `>= 20`, `0.0` for `None` or
tiers `< 1`, and its result always lies in `[0, 30]`. -/
theorem c8_reduction_percent :
    calculate_quick_forge_reduction none = 0
    ∧ (∀ t : ℤ, t < 1 → calculate_quick_forge_reduction (some t) = 0)
    ∧ (∀ t : ℤ, 20 ≤ t → calculate_quick_forge_reduction (some t) = 30)
    ∧ (∀ t : ℤ, 1 ≤ t → t ≤ 19 →
        calculate_quick_forge_reduction (some t) = 10.5 + 0.5 * ((t : ℚ) - 1))
    ∧ (∀ t : Option ℤ,
        0 ≤ calculate_quick_forge_reduction t ∧ calculate_quick_forge_reduction t ≤ 30) := by
  refine ⟨rfl, ?_, ?_, ?_, quickForgeRange⟩
  · intro t ht; simp [calculate_quick_forge_reduction, ht]
  · intro t ht
    have : ¬ t < 1 := by omega
    simp [calculate_quick_forge_reduction, this, ht]
  · exact quickForgeTable

/-- Witness for C8 at tier 5: `10.5 + 0.5*4 = 12.5`. -/
theorem c8_witness : calculate_quick_forge_reduction (some 5) = 10.5 + 0.5 * ((5 : ℚ) - 1) :=
  c8_reduction_percent.2.2.2.1 5 (by norm_num) (by norm_num)

/-- C3: the adjusted end time is computed percent-first then flat-subtract:
without the clock it is `start + base*(1 - reduction/100)`; with the clock the
flat hour is subtracted from the effective duration, floored at `0`, before
re-adding to `start`; under the actual reduction range the end time never
precedes `start`. -/
theorem c3_adjusted_end_time (startMs dur red : ℚ) :
    adjustedEndTime startMs dur red false = startMs + dur * (1 - red / 100)
    ∧ adjustedEndTime startMs dur red true
        = startMs + max 0 (dur * (1 - red / 100) - 3600000)
    ∧ (∀ clock : Bool, 0 ≤ dur → red ≤ 100 → startMs ≤ adjustedEndTime startMs dur red clock) := by
  refine ⟨rfl, by norm_num [adjustedEndTime, ENCHANTED_CLOCK_REDUCTION_MS], ?_⟩
  intro clock hdur hred
  cases clock with
  | true =>
    have h0 : (0 : ℚ) ≤ max 0 (dur * (1 - red / 100) - ENCHANTED_CLOCK_REDUCTION_MS) :=
      le_max_left _ _
    show startMs ≤ startMs + max 0 (dur * (1 - red / 100) - ENCHANTED_CLOCK_REDUCTION_MS)
    linarith
  | false =>
    have h0 : (0 : ℚ) ≤ dur * (1 - red / 100) := by
      apply mul_nonneg hdur; linarith
    show startMs ≤ startMs + dur * (1 - red / 100)
    linarith

/-- Witness for C3: `start=0`, `base=7_200_000`, `reduction=10.5` gives
`6_444_000` without the flat buff and `2_844_000` with it, and the end time
does not precede the start. -/
theorem c3_witness :
    adjustedEndTime 0 7200000 10.5 false = 6444000
    ∧ adjustedEndTime 0 7200000 10.5 true = 2844000
    ∧ (0 : ℚ) ≤ adjustedEndTime 0 7200000 10.5 true := by
  refine ⟨?_, ?_, (c3_adjusted_end_time 0 7200000 10.5).2.2 true (by norm_num) (by norm_num)⟩
  · rw [(c3_adjusted_end_time 0 7200000 10.5).1]; norm_num
  · rw [(c3_adjusted_end_time 0 7200000 10.5).2.1]; norm_num

/-- C4 counterexample: the Notification History save is a direct write, so
the crash point right after `open(HISTORY_FILE, 'w')` truncated the file
leaves neither the old nor the new document. -/
theorem c4_counterexample : ¬ atomicSave "A" "B" saveHistoryOps := by
  intro h
  have h1 := h [FsOp.truncTarget] ⟨[FsOp.writeTargetDoc], rfl⟩
  simp only [runFs, fsStep] at h1
  exact (by decide : ¬ ("" = "A" ∨ "" = "B")) h1

/-- C4 (amended): the Registrations, Buff-Usage Ledger and notification-status
saves write the document to a temp file and rename it over the original, so
every crash point leaves the old or the new document; the Notification History
save writes directly into the store file and is not crash-atomic. -/
theorem c4_atomic_saves :
    (∀ old doc : String,
      atomicSave old doc saveRegistrationsOps
      ∧ atomicSave old doc saveClockUsageOps
      ∧ atomicSave old doc saveNotificationsStatusOps)
    ∧ ¬ atomicSave "A" "B" saveHistoryOps := by
  constructor
  · intro old doc
    exact ⟨atomicTempRename old doc, atomicTempRename old doc, atomicTempRename old doc⟩
  · intro h
    have h1 := h [FsOp.truncTarget] ⟨[FsOp.writeTargetDoc], rfl⟩
    simp only [runFs, fsStep] at h1
    exact (by decide : ¬ ("" = "A" ∨ "" = "B")) h1

/-- Witness for C4: the clock-usage save trace is atomic at concrete contents. -/
theorem c4_witness : atomicSave "X" "Y" saveClockUsageOps :=
  (c4_atomic_saves.1 "X" "Y").2.1

/-- C5 counterexample: the persisted history document `[["a","b"]]` loads
without error into a single 2-tuple, but the history cleanup then evaluates
`item_tuple[3]` and raises (`none` in the model), aborting the poll cycle. -/
theorem c5_counterexample :
    cleanup_history 0 (load_history (.parsed (.arr [.arr [.str "a", .str "b"]]))) = none := by
  rfl

/-- C5 (amended): loading the history is never fatal — a missing file,
unparsable JSON, a non-list top level, a non-iterable entry all yield the
empty history — but `cleanup_history` assumes every loaded entry has a
numeric element at index 3 and fails otherwise; it completes exactly on
histories whose entries all satisfy that, keeping the entries at or above the
retention threshold. -/
theorem c5_load_cleanup :
    load_history .missing = []
    ∧ load_history .unparsable = []
    ∧ (∀ q, load_history (.parsed (.num q)) = [])
    ∧ (∀ kvs, load_history (.parsed (.obj kvs)) = [])
    ∧ (∀ b, load_history (.parsed (.bool b)) = [])
    ∧ load_history (.parsed .null) = []
    ∧ (∀ xs x, x ∈ xs → pyIter x = none → load_history (.parsed (.arr xs)) = [])
    ∧ (∀ nowMs hist, (∀ t ∈ hist, (histEntryEnd t).isSome) →
        cleanup_history nowMs hist
          = some (hist.filter fun t =>
              match histEntryEnd t with
              | some e => decide (cleanupThreshold nowMs ≤ e)
              | none => false)) := by
  refine ⟨rfl, rfl, fun _ => rfl, fun _ => rfl, fun _ => rfl, rfl, ?_, ?_⟩
  · intro xs x hx hnone
    simp [load_history, tupleAll_eq_none hx hnone]
  · intro nowMs hist hall
    by_cases hE : hist.isEmpty
    · rw [List.isEmpty_iff] at hE
      subst hE
      rfl
    · have hallb : hist.all (fun t => (histEntryEnd t).isSome) = true :=
        List.all_eq_true.mpr (fun t ht => hall t ht)
      simp [cleanup_history, hE, hallb]

/-- Witness for C5: cleanup succeeds on a well-formed 4-tuple history. -/
theorem c5_witness :
    cleanup_history 0 [[JValue.str "u", JValue.str "p", JValue.num 0, JValue.num 5]]
      = some [[JValue.str "u", JValue.str "p", JValue.num 0, JValue.num 5]] := by
  rw [c5_load_cleanup.2.2.2.2.2.2.2 0
    [[JValue.str "u", JValue.str "p", JValue.num 0, JValue.num 5]] (by decide)]
  rfl

/-- C7 counterexample: a rate-limited fetch does not return a Failure that
the scanner could log and skip — after three straight 429 responses
`get_player_profiles` is still inside its unbounded sleep-and-retry
recursion. -/
theorem c7_counterexample :
    get_player_profiles (List.replicate 3 (HttpResult.httpError 429))
      = FetchOutcome.stillRetrying
    ∧ FetchOutcome.stillRetrying ≠ FetchOutcome.failure := by
  exact ⟨rfl, by decide⟩

/-- C7 (amended): an account whose fetch returned `None` or a non-success
body is skipped and the remaining accounts are scanned unaffected; network,
decode and non-429 HTTP errors do return `None`; but a 429 never returns —
`get_player_profiles` sleeps and retries with no bound, so persistent
rate-limiting keeps the poll cycle blocked. -/
theorem c7_fetch_failures :
    (∀ nowMs uid hist cfg cu env (acc : AccountEntry) u,
      acc.uuid = some u → env u = none →
      scanAccountReady nowMs uid hist cfg cu env acc = [])
    ∧ (∀ nowMs uid hist cfg cu env (acc : AccountEntry) u resp,
        acc.uuid = some u → env u = some resp → resp.success = false →
        scanAccountReady nowMs uid hist cfg cu env acc = [])
    ∧ (∀ nowMs uid hist cfg cu env l1 (acc : AccountEntry) l2,
        scanUserReady nowMs uid hist cfg cu env (l1 ++ acc :: l2)
          = scanUserReady nowMs uid hist cfg cu env l1
            ++ scanAccountReady nowMs uid hist cfg cu env acc
            ++ scanUserReady nowMs uid hist cfg cu env l2)
    ∧ get_player_profiles [HttpResult.netError] = FetchOutcome.failure
    ∧ get_player_profiles [HttpResult.decodeError] = FetchOutcome.failure
    ∧ (∀ s r, s ≠ 429 →
        get_player_profiles (HttpResult.httpError s :: r) = FetchOutcome.failure)
    ∧ (∀ r, get_player_profiles (HttpResult.httpError 429 :: r) = get_player_profiles r)
    ∧ (∀ n, get_player_profiles (List.replicate n (HttpResult.httpError 429))
        = FetchOutcome.stillRetrying) := by
  refine ⟨?_, ?_, ?_, rfl, rfl, ?_, ?_, ?_⟩
  · intro nowMs uid hist cfg cu env acc u hacc henv
    by_cases hu : u = ""
    · simp [scanAccountReady, hacc, hu]
    · simp [scanAccountReady, hacc, hu, henv]
  · intro nowMs uid hist cfg cu env acc u resp hacc henv hsucc
    by_cases hu : u = ""
    · simp [scanAccountReady, hacc, hu]
    · simp [scanAccountReady, hacc, hu, henv, hsucc]
  · intro nowMs uid hist cfg cu env l1 acc l2
    simp [scanUserReady, List.flatMap_append, List.flatMap_cons]
  · intro s r hs
    simp [get_player_profiles, hs]
  · intro r
    simp [get_player_profiles]
  · intro n
    induction n with
    | zero => rfl
    | succ m ih => simpa [List.replicate_succ, get_player_profiles] using ih

/-- Witness for C7: a non-429 HTTP error returns a Failure at once. -/
theorem c7_witness : get_player_profiles [HttpResult.httpError 500] = FetchOutcome.failure :=
  c7_fetch_failures.2.2.2.2.2.1 500 [] (by decide)

theorem mem_readyList {r : SlotResult} {it : ReadyItem} :
    it ∈ readyList r ↔ r = .readyNew it := by
  cases r <;> simp [readyList, eq_comm]

/-- Everything the classification of one slot as `READY_NEW` pins down, and
how the same slot classifies against any other history. -/
theorem classify_spec (nowMs : ℚ) (uid pid pname : String) (red : ℚ) (clock : Bool)
    (hist hist2 : List Ident) (cfg : List (String × ForgeItemInfo))
    (ftype skey : String) (slot : ApiSlot) (it : ReadyItem)
    (h : classifySlot nowMs uid pid pname red clock hist cfg ftype skey slot = .readyNew it) :
    mkIdent uid it ∉ hist
    ∧ it.adjustedEndTimeMs ≤ nowMs
    ∧ (mkIdent uid it ∈ hist2 →
        classifySlot nowMs uid pid pname red clock hist2 cfg ftype skey slot
          = .readyAlreadyNotified)
    ∧ (mkIdent uid it ∉ hist2 →
        classifySlot nowMs uid pid pname red clock hist2 cfg ftype skey slot
          = .readyNew it) := by
  obtain ⟨sid, sstart⟩ := slot
  cases sstart with
  | none => cases sid <;> simp [classifySlot] at h
  | some startMs =>
    cases sid with
    | none => simp [classifySlot] at h
    | some itemId =>
      cases hlk : cfg.lookup itemId with
      | none => simp [classifySlot, hlk] at h
      | some info =>
        cases hdur : info.duration with
        | none => simp [classifySlot, hlk, hdur] at h
        | some dur =>
          by_cases hle : adjustedEndTime startMs dur red clock ≤ nowMs
          · by_cases hmem : (uid, pid, startMs, adjustedEndTime startMs dur red clock) ∈ hist
            · simp [classifySlot, hlk, hdur, hle, hmem] at h
            · simp only [classifySlot, hlk, hdur, if_pos hle, if_neg hmem,
                SlotResult.readyNew.injEq] at h
              subst h
              refine ⟨by simpa [mkIdent] using hmem, hle, ?_, ?_⟩
              · intro hmem2
                simp only [mkIdent] at hmem2
                simp [classifySlot, hlk, hdur, hle, hmem2]
              · intro hmem2
                simp only [mkIdent] at hmem2
                simp [classifySlot, hlk, hdur, hle, hmem2]
          · simp [classifySlot, hlk, hdur, hle] at h

theorem mem_scanProfileReady {nowMs : ℚ} {uid : String} {hist : List Ident}
    {cfg : List (String × ForgeItemInfo)} {cu : List (String × JValue)}
    {u : String} {p : ProfileData} {it : ReadyItem} :
    it ∈ scanProfileReady nowMs uid hist cfg cu u p ↔
    ∃ pid, p.profileId = some pid ∧ ∃ ft ∈ p.forgeProcesses, ∃ sl ∈ ft.2,
      classifySlot nowMs uid pid (p.cuteName.getD "Unknown Profile")
        (calculate_quick_forge_reduction p.forgeTimeLevel)
        (is_clock_used nowMs cu u pid) hist cfg ft.1 sl.1 sl.2 = .readyNew it := by
  cases hpid : p.profileId with
  | none => simp [scanProfileReady, hpid]
  | some pid => simp [scanProfileReady, hpid, List.mem_flatMap, mem_readyList]

theorem mem_scanAccountReady {nowMs : ℚ} {uid : String} {hist : List Ident}
    {cfg : List (String × ForgeItemInfo)} {cu : List (String × JValue)}
    {env : String → Option ProfilesResponse} {acc : AccountEntry} {it : ReadyItem} :
    it ∈ scanAccountReady nowMs uid hist cfg cu env acc ↔
    ∃ u, acc.uuid = some u ∧ ¬(u = "") ∧ ∃ resp, env u = some resp ∧ resp.success = true ∧
      ∃ p ∈ resp.profiles, it ∈ scanProfileReady nowMs uid hist cfg cu u p := by
  cases hacc : acc.uuid with
  | none => simp [scanAccountReady, hacc]
  | some u =>
    by_cases hu : u = ""
    · simp [scanAccountReady, hacc, hu]
    · cases henv : env u with
      | none => simp [scanAccountReady, hacc, hu, henv]
      | some resp =>
        cases hsucc : resp.success with
        | false => simp [scanAccountReady, hacc, hu, henv, hsucc]
        | true => simp [scanAccountReady, hacc, hu, henv, hsucc, List.mem_flatMap]

theorem mem_scanUserReady {nowMs : ℚ} {uid : String} {hist : List Ident}
    {cfg : List (String × ForgeItemInfo)} {cu : List (String × JValue)}
    {env : String → Option ProfilesResponse} {accounts : List AccountEntry} {it : ReadyItem} :
    it ∈ scanUserReady nowMs uid hist cfg cu env accounts ↔
    ∃ acc ∈ accounts, it ∈ scanAccountReady nowMs uid hist cfg cu env acc := by
  simp [scanUserReady, List.mem_flatMap]

/-- The classification produced by one scan, extracted down to the slot. -/
theorem scanUserReady_classify {nowMs : ℚ} {uid : String} {hist : List Ident}
    {cfg : List (String × ForgeItemInfo)} {cu : List (String × JValue)}
    {env : String → Option ProfilesResponse} {accounts : List AccountEntry} {it : ReadyItem} :
    it ∈ scanUserReady nowMs uid hist cfg cu env accounts ↔
    ∃ acc ∈ accounts, ∃ u, acc.uuid = some u ∧ ¬(u = "") ∧
      ∃ resp, env u = some resp ∧ resp.success = true ∧
      ∃ p ∈ resp.profiles, ∃ pid, p.profileId = some pid ∧
      ∃ ft ∈ p.forgeProcesses, ∃ sl ∈ ft.2,
        classifySlot nowMs uid pid (p.cuteName.getD "Unknown Profile")
          (calculate_quick_forge_reduction p.forgeTimeLevel)
          (is_clock_used nowMs cu u pid) hist cfg ft.1 sl.1 sl.2 = .readyNew it := by
  simp only [mem_scanUserReady, mem_scanAccountReady, mem_scanProfileReady]

/-- C2: the scanner never emits a `READY_NEW` item whose CompletionEvent
tuple is already in the history; a slot that classified `READY_NEW` against
one history classifies `READY_ALREADY_NOTIFIED` against any history holding
its tuple; and once every emitted tuple has been committed, an identical
second scan (same fetched data, time and buff state, being a pure function of
them) emits zero `READY_NEW` items. -/
theorem c2_scanner_idempotent (nowMs : ℚ) (uid : String) (hist hist2 : List Ident)
    (cfg : List (String × ForgeItemInfo)) (cu : List (String × JValue))
    (env : String → Option ProfilesResponse) (accounts : List AccountEntry) :
    (∀ it ∈ scanUserReady nowMs uid hist cfg cu env accounts, mkIdent uid it ∉ hist)
    ∧ (∀ pid pname red clock ftype skey slot it,
        classifySlot nowMs uid pid pname red clock hist cfg ftype skey slot = .readyNew it →
        mkIdent uid it ∈ hist2 →
        classifySlot nowMs uid pid pname red clock hist2 cfg ftype skey slot
          = .readyAlreadyNotified)
    ∧ ((∀ x ∈ hist, x ∈ hist2) →
        (∀ it ∈ scanUserReady nowMs uid hist cfg cu env accounts, mkIdent uid it ∈ hist2) →
        scanUserReady nowMs uid hist2 cfg cu env accounts = []) := by
  refine ⟨?_, ?_, ?_⟩
  · intro it hmem
    obtain ⟨acc, hacc, u, hu, hu0, resp, henv, hsucc, p, hp, pid, hpid, ft, hft, sl, hsl, hcls⟩ :=
      scanUserReady_classify.mp hmem
    exact (classify_spec _ _ _ _ _ _ _ hist2 _ _ _ _ _ hcls).1
  · intro pid pname red clock ftype skey slot it h hm
    exact (classify_spec _ _ _ _ _ _ _ hist2 _ _ _ _ _ h).2.2.1 hm
  · intro hsub hcommit
    rw [List.eq_nil_iff_forall_not_mem]
    intro it hmem2
    obtain ⟨acc, hacc, u, hu, hu0, resp, henv, hsucc, p, hp, pid, hpid, ft, hft, sl, hsl, hcls2⟩ :=
      scanUserReady_classify.mp hmem2
    have hnot2 : mkIdent uid it ∉ hist2 :=
      (classify_spec _ _ _ _ _ _ _ hist _ _ _ _ _ hcls2).1
    by_cases hin : mkIdent uid it ∈ hist
    · exact hnot2 (hsub _ hin)
    · have hcls1 := (classify_spec _ _ _ _ _ _ _ hist _ _ _ _ _ hcls2).2.2.2 hin
      have hmem1 : it ∈ scanUserReady nowMs uid hist cfg cu env accounts :=
        scanUserReady_classify.mpr
          ⟨acc, hacc, u, hu, hu0, resp, henv, hsucc, p, hp, pid, hpid, ft, hft, sl, hsl, hcls1⟩
      exact hnot2 (hcommit it hmem1)

theorem mem_addIdent {x i : Ident} {h : List Ident} : x ∈ addIdent i h ↔ x = i ∨ x ∈ h := by
  by_cases hi : i ∈ h
  · simp only [addIdent, if_pos hi]
    exact ⟨Or.inr, fun hc => hc.elim (fun he => he ▸ hi) id⟩
  · simp [addIdent, hi, List.mem_cons]

theorem mem_commitFold {uid : String} {items : List ReadyItem} {hist : List Ident} {x : Ident} :
    x ∈ items.foldl (fun h it => addIdent (mkIdent uid it) h) hist ↔
    (∃ it ∈ items, x = mkIdent uid it) ∨ x ∈ hist := by
  induction items generalizing hist with
  | nil => simp
  | cons a l ih =>
    simp only [List.foldl_cons]
    rw [ih, mem_addIdent]
    simp only [List.mem_cons]
    constructor
    · rintro (⟨it, hit, rfl⟩ | rfl | hx)
      · exact Or.inl ⟨it, Or.inr hit, rfl⟩
      · exact Or.inl ⟨a, Or.inl rfl, rfl⟩
      · exact Or.inr hx
    · rintro (⟨it, rfl | hit, rfl⟩ | hx)
      · exact Or.inr (Or.inl rfl)
      · exact Or.inl ⟨it, hit, rfl⟩
      · exact Or.inr (Or.inr hx)

theorem joinLines_cons_ne_empty {a : String} {rest : List String} (ha : a.length ≠ 0) :
    joinLines (a :: rest) ≠ "" := by
  cases rest with
  | nil =>
    intro h
    exact ha (by simpa using congrArg String.length h)
  | cons b r =>
    intro h
    have hlen := congrArg String.length h
    have h1 : ("\n" : String).length = 1 := rfl
    simp only [joinLines, String.length_append, h1] at hlen
    simp at hlen

/-- C1: `send_forge_webhook` on the dispatcher's aggregated message commits
the CompletionEvent tuples of the sent items into the in-memory history and
persists it iff the delivery returned a 2xx status; on any failure outcome
(timeout, non-2xx response, exception) the history after the call is the very
history from before the call, nothing is persisted, and the items' tuples are
still absent — so the same items classify `READY_NEW` on the next poll. -/
theorem c1_dispatcher_commit (url uid mention : String) (items : List ReadyItem)
    (hist : List Ident) (outcome : DeliveryOutcome)
    (hne : items ≠ []) (hfresh : ∀ it ∈ items, mkIdent uid it ∉ hist) :
    (is2xx outcome = true →
      send_forge_webhook (some url) uid (joinLines (messageLines mention items)) items outcome hist
        = (items.foldl (fun h it => addIdent (mkIdent uid it) h) hist, true)
      ∧ ∀ it ∈ items, mkIdent uid it
          ∈ (send_forge_webhook (some url) uid (joinLines (messageLines mention items))
              items outcome hist).1)
    ∧ (is2xx outcome = false →
      send_forge_webhook (some url) uid (joinLines (messageLines mention items)) items outcome hist
        = (hist, false)
      ∧ ∀ it ∈ items, mkIdent uid it
          ∉ (send_forge_webhook (some url) uid (joinLines (messageLines mention items))
              items outcome hist).1) := by
  have hmsg : joinLines (messageLines mention items) ≠ "" := by
    apply joinLines_cons_ne_empty
    have h1 : ("\n" : String).length = 1 := rfl
    simp [String.length_append, h1]
  have hempty : items.isEmpty = false := by
    cases items with
    | nil => exact absurd rfl hne
    | cons a l => rfl
  constructor
  · intro h2
    have heq : send_forge_webhook (some url) uid (joinLines (messageLines mention items))
        items outcome hist
        = (items.foldl (fun h it => addIdent (mkIdent uid it) h) hist, true) := by
      simp [send_forge_webhook, hmsg, h2, hempty]
    refine ⟨heq, ?_⟩
    intro it hit
    rw [heq]
    exact mem_commitFold.mpr (Or.inl ⟨it, hit, rfl⟩)
  · intro h2
    have heq : send_forge_webhook (some url) uid (joinLines (messageLines mention items))
        items outcome hist = (hist, false) := by
      simp [send_forge_webhook, hmsg, h2]
    refine ⟨heq, ?_⟩
    intro it hit
    rw [heq]
    exact hfresh it hit

/-- Witness for C1: one item, empty history, a 204 response commits and
saves; a 500 response leaves the history empty and unsaved. -/
theorem c1_witness :
    send_forge_webhook (some "https://h.example/wh") "1"
        (joinLines (messageLines "<@1>" [sampleItem])) [sampleItem]
        (.response 204) []
      = ([mkIdent "1" sampleItem], true)
    ∧ send_forge_webhook (some "https://h.example/wh") "1"
        (joinLines (messageLines "<@1>" [sampleItem])) [sampleItem]
        (.response 500) []
      = ([], false) := by
  constructor
  · have h := (c1_dispatcher_commit "https://h.example/wh" "1" "<@1>" [sampleItem] []
      (.response 204) (by simp) (by simp)).1 (by decide)
    rw [h.1]
    rfl
  · exact ((c1_dispatcher_commit "https://h.example/wh" "1" "<@1>" [sampleItem] []
      (.response 500) (by simp) (by simp)).2 (by decide)).1

/-- Witness for C2: a user with one ready slot; after committing the emitted
tuple, the identical second scan yields zero `READY_NEW` items. -/
theorem c2_witness :
    scanUserReady 5000 "7" [("7", "p-1", 0, 1000)]
      [("GEM_DRILL", ⟨some "Gemstone Drill", some 1000⟩)] []
      (fun _ => some ⟨true, [⟨some "Apple", some "p-1", none,
        [("forge_1", [("1", ⟨some "GEM_DRILL", some 0⟩)])]⟩]⟩)
      [⟨some "aaaa"⟩] = [] := by
  exact (c2_scanner_idempotent 5000 "7" [] [("7", "p-1", 0, 1000)]
    [("GEM_DRILL", ⟨some "Gemstone Drill", some 1000⟩)] []
    (fun _ => some ⟨true, [⟨some "Apple", some "p-1", none,
      [("forge_1", [("1", ⟨some "GEM_DRILL", some 0⟩)])]⟩]⟩)
    [⟨some "aaaa"⟩]).2.2 (by simp) (by decide)

/-- C10: the dedup check compares the full 4-tuple including the recomputed
adjusted end time.  Whenever the tuple with the currently computed end time is
in the history, the slot is `READY_ALREADY_NOTIFIED`; but if the buff state
differs from an earlier poll so that the recomputed end time is different (and
also due), the slot is emitted `READY_NEW` again no matter which earlier
tuples the history holds. -/
theorem c10_dedup_recompute (nowMs startMs dur red : ℚ)
    (uid pid pname itemId nm ftype skey : String)
    (cfg : List (String × ForgeItemInfo)) (hist : List Ident)
    (hcfg : cfg.lookup itemId = some ⟨some nm, some dur⟩) :
    (∀ clock : Bool,
      (uid, pid, startMs, adjustedEndTime startMs dur red clock) ∈ hist →
      adjustedEndTime startMs dur red clock ≤ nowMs →
      classifySlot nowMs uid pid pname red clock hist cfg ftype skey ⟨some itemId, some startMs⟩
        = .readyAlreadyNotified)
    ∧ ((uid, pid, startMs, adjustedEndTime startMs dur red true) ∉ hist →
      adjustedEndTime startMs dur red true ≤ nowMs →
      classifySlot nowMs uid pid pname red true hist cfg ftype skey ⟨some itemId, some startMs⟩
        = .readyNew ⟨pname, pid, nm, ftype, skey, startMs,
            adjustedEndTime startMs dur red true, itemId⟩) := by
  constructor
  · intro clock hmem hle
    simp [classifySlot, hcfg, hle, hmem]
  · intro hmem hle
    simp [classifySlot, hcfg, hle, hmem]

/-- Witness for C10: the un-buffed tuple (end `7_200_000`) is committed; on
the next poll the clock buff is active, the recomputed end is `3_600_000`,
and the same slot is `READY_NEW` again. -/
theorem c10_witness :
    classifySlot 8000000 "u" "p" "Main" 0 true [("u", "p", 0, 7200000)]
        [("ITEM", ⟨some "Item", some 7200000⟩)] "forge_1" "0" ⟨some "ITEM", some 0⟩
      = .readyNew ⟨"Main", "p", "Item", "forge_1", "0", 0,
          adjustedEndTime 0 7200000 0 true, "ITEM"⟩
    ∧ adjustedEndTime 0 7200000 0 true = 3600000
    ∧ adjustedEndTime 0 7200000 0 false = 7200000 := by
  refine ⟨?_, by decide, by decide⟩
  exact (c10_dedup_recompute 8000000 0 7200000 0 "u" "p" "Main" "ITEM" "Item" "forge_1" "0"
    [("ITEM", ⟨some "Item", some 7200000⟩)] [("u", "p", 0, 7200000)] rfl).2
    (by decide) (by decide)

theorem insertLE_perm {α : Type} (le : α → α → Bool) (x : α) (l : List α) :
    (insertLE le x l).Perm (x :: l) := by
  induction l with
  | nil => exact List.Perm.refl _
  | cons y ys ih =>
    by_cases hxy : le x y
    · simp [insertLE, hxy]
    · simp only [insertLE, if_neg hxy]
      exact (ih.cons y).trans (List.Perm.swap x y ys)

theorem sortLE_perm {α : Type} (le : α → α → Bool) (l : List α) : (sortLE le l).Perm l := by
  induction l with
  | nil => exact List.Perm.refl _
  | cons x xs ih => exact (insertLE_perm le x (sortLE le xs)).trans (ih.cons x)

/-- A `filterMap` that preserves a key of each element yields a key sublist. -/
theorem map_filterMap_sublist {α β γ : Type} (f : α → Option β) (g : β → γ) (k : α → γ)
    (hfg : ∀ a b, f a = some b → g b = k a) (l : List α) :
    ((l.filterMap f).map g).Sublist (l.map k) := by
  induction l with
  | nil => simp
  | cons a l ih =>
    cases hfa : f a with
    | none =>
      simp only [List.filterMap_cons, hfa, List.map_cons]
      exact ih.cons _
    | some b =>
      simp only [List.filterMap_cons, hfa, List.map_cons, hfg a b hfa]
      exact ih.cons₂ _

theorem scanCycle_userId_of_some {nowMs : ℚ} {hist : List Ident}
    {cfg : List (String × ForgeItemInfo)} {cu : List (String × JValue)}
    {env : String → Option ProfilesResponse}
    {e : String × List AccountEntry} {b : UserNotification}
    (hfb : (if e.2.isEmpty then none
      else
        match pyParseInt e.1 with
        | none => none
        | some n =>
          let items := scanUserReady nowMs e.1 hist cfg cu env e.2
          if items.isEmpty then none
          else some ⟨e.1, "<@" ++ toString n ++ ">", items⟩) = some b) :
    b.userId = e.1 := by
  by_cases h1 : e.2.isEmpty
  · rw [if_pos h1] at hfb
    exact Option.noConfusion hfb
  · rw [if_neg h1] at hfb
    cases h2 : pyParseInt e.1 with
    | none =>
      simp only [h2] at hfb
      exact Option.noConfusion hfb
    | some n =>
      simp only [h2] at hfb
      by_cases h3 : (scanUserReady nowMs e.1 hist cfg cu env e.2).isEmpty
      · rw [if_pos h3] at hfb
        exact Option.noConfusion hfb
      · rw [if_neg h3] at hfb
        injection hfb with h4
        rw [← h4]

/-- C9: the per-cycle dispatch makes exactly one webhook call for a user with
a non-empty ready list, and that single call's message is the mention line,
the header, and one item line per ready item (across all the user's accounts
and profiles, two profiles included). -/
theorem c9_aggregation (nowMs : ℚ) (hist : List Ident)
    (cfg : List (String × ForgeItemInfo)) (cu : List (String × JValue))
    (env : String → Option ProfilesResponse)
    (regs : List (String × List AccountEntry)) (u : String) (n : ℤ)
    (accounts : List AccountEntry)
    (hnd : (regs.map Prod.fst).Nodup)
    (hmem : (u, accounts) ∈ regs)
    (hn : pyParseInt u = some n)
    (hne : scanUserReady nowMs u hist cfg cu env accounts ≠ []) :
    WebhookCall.mk u
        (joinLines (messageLines ("<@" ++ toString n ++ ">")
          (scanUserReady nowMs u hist cfg cu env accounts)))
        (scanUserReady nowMs u hist cfg cu env accounts)
      ∈ dispatchCalls (scanCycle nowMs hist cfg cu env regs)
    ∧ (dispatchCalls (scanCycle nowMs hist cfg cu env regs)).countP
        (fun c => c.userId == u) = 1
    ∧ messageLines ("<@" ++ toString n ++ ">") (scanUserReady nowMs u hist cfg cu env accounts)
        = (("<@" ++ toString n ++ ">") ++ "\n") :: "Your forge items are ready:" ::
          (sortLE readyItemLE (scanUserReady nowMs u hist cfg cu env accounts)).map itemLine
    ∧ (sortLE readyItemLE (scanUserReady nowMs u hist cfg cu env accounts)).Perm
        (scanUserReady nowMs u hist cfg cu env accounts)
    ∧ ((sortLE readyItemLE (scanUserReady nowMs u hist cfg cu env accounts)).map itemLine).length
        = (scanUserReady nowMs u hist cfg cu env accounts).length := by
  have haccne : accounts ≠ [] := by
    intro h
    subst h
    exact hne rfl
  have haccE : accounts.isEmpty = false := by
    cases accounts with
    | nil => exact absurd rfl haccne
    | cons a l => rfl
  have hitemsE : (scanUserReady nowMs u hist cfg cu env accounts).isEmpty = false := by
    cases hscan : scanUserReady nowMs u hist cfg cu env accounts with
    | nil => exact absurd hscan hne
    | cons a l => rfl
  have hentry : (⟨u, "<@" ++ toString n ++ ">",
      scanUserReady nowMs u hist cfg cu env accounts⟩ : UserNotification)
      ∈ scanCycle nowMs hist cfg cu env regs := by
    apply List.mem_filterMap.mpr
    refine ⟨(u, accounts), hmem, ?_⟩
    simp [haccE, hn, hitemsE]
  have hcall : WebhookCall.mk u
      (joinLines (messageLines ("<@" ++ toString n ++ ">")
        (scanUserReady nowMs u hist cfg cu env accounts)))
      (scanUserReady nowMs u hist cfg cu env accounts)
      ∈ dispatchCalls (scanCycle nowMs hist cfg cu env regs) := by
    apply List.mem_filterMap.mpr
    refine ⟨_, hentry, ?_⟩
    simp [hitemsE]
  have hsub1 : ((scanCycle nowMs hist cfg cu env regs).map (fun x => x.userId)).Sublist
      (regs.map Prod.fst) :=
    map_filterMap_sublist _ _ _ (fun e b hfb => scanCycle_userId_of_some hfb) regs
  have hsub2 : ((dispatchCalls (scanCycle nowMs hist cfg cu env regs)).map
      (fun c => c.userId)).Sublist
      ((scanCycle nowMs hist cfg cu env regs).map (fun x => x.userId)) := by
    apply map_filterMap_sublist
    intro a b hfb
    by_cases hb : a.readyItems.isEmpty
    · rw [if_pos hb] at hfb
      exact Option.noConfusion hfb
    · rw [if_neg hb] at hfb
      injection hfb with h4
      rw [← h4]
  have hndcalls : ((dispatchCalls (scanCycle nowMs hist cfg cu env regs)).map
      (fun c => c.userId)).Nodup :=
    (hsub2.trans hsub1).nodup hnd
  have humem : u ∈ (dispatchCalls (scanCycle nowMs hist cfg cu env regs)).map
      (fun c => c.userId) :=
    List.mem_map.mpr ⟨_, hcall, rfl⟩
  have hcount : ((dispatchCalls (scanCycle nowMs hist cfg cu env regs)).map
      (fun c => c.userId)).count u = 1 := by
    have hle := List.nodup_iff_count_le_one.mp hndcalls u
    have hge := List.count_pos_iff.mpr humem
    omega
  refine ⟨hcall, ?_, rfl, sortLE_perm _ _, ?_⟩
  · rw [← hcount, List.count, List.countP_map]
    rfl
  · rw [List.length_map]
    exact (sortLE_perm readyItemLE _).length_eq

/-- Witness for C9: a user with two ready items on two different profiles of
one account gets exactly one webhook call. -/
theorem c9_witness :
    (dispatchCalls (scanCycle 5000 []
      [("A_ITEM", ⟨some "Item A", some 1000⟩)] []
      (fun _ => some ⟨true,
        [⟨some "Apple", some "p-1", none, [("forge_1", [("1", ⟨some "A_ITEM", some 0⟩)])]⟩,
         ⟨some "Banana", some "p-2", none, [("forge_1", [("1", ⟨some "A_ITEM", some 0⟩)])]⟩]⟩)
      [("7", [⟨some "aaaa"⟩])])).countP (fun c => c.userId == "7") = 1 :=
  (c9_aggregation 5000 []
    [("A_ITEM", ⟨some "Item A", some 1000⟩)] []
    (fun _ => some ⟨true,
      [⟨some "Apple", some "p-1", none, [("forge_1", [("1", ⟨some "A_ITEM", some 0⟩)])]⟩,
       ⟨some "Banana", some "p-2", none, [("forge_1", [("1", ⟨some "A_ITEM", some 0⟩)])]⟩]⟩)
    [("7", [⟨some "aaaa"⟩])] "7" 7 [⟨some "aaaa"⟩]
    (by decide) (by decide) (by decide) (by decide)).2.1

theorem jAsObj_eq_some {v : JValue} {ps : List (String × JValue)} :
    jAsObj v = some ps ↔ v = JValue.obj ps := by
  cases v <;> simp [jAsObj]

theorem lookup_cons_self {β : Type} (k : String) (b : β) (es : List (String × β)) :
    ((k, b) :: es).lookup k = some b := by
  simp [List.lookup]

theorem lookup_cons_ne {β : Type} {a k : String} (h : a ≠ k) (b : β) (es : List (String × β)) :
    ((k, b) :: es).lookup a = es.lookup a := by
  have hb : (a == k) = false := beq_eq_false_iff_ne.mpr h
  simp [List.lookup, hb]

theorem lookup_eq_none_of_not_mem_keys {β : Type} {l : List (String × β)} {k : String}
    (h : k ∉ l.map Prod.fst) : l.lookup k = none := by
  induction l with
  | nil => rfl
  | cons e rest ih =>
    obtain ⟨a, b⟩ := e
    simp only [List.map_cons, List.mem_cons] at h
    push_neg at h
    rw [lookup_cons_ne h.1 b rest]
    exact ih h.2

theorem mem_of_lookup_eq_some {β : Type} {l : List (String × β)} {k : String} {v : β}
    (h : l.lookup k = some v) : (k, v) ∈ l := by
  induction l with
  | nil => cases h
  | cons e rest ih =>
    obtain ⟨a, b⟩ := e
    by_cases hk : k = a
    · subst hk
      rw [lookup_cons_self] at h
      injection h with h1
      rw [h1]
      exact List.mem_cons_self _ _
    · rw [lookup_cons_ne hk b rest] at h
      exact List.mem_cons_of_mem _ (ih h)

theorem cleanup_keys_sublist (nowMs : ℚ) (cu : List (String × JValue)) :
    ((cleanup_expired_clock_entries nowMs cu).map Prod.fst).Sublist (cu.map Prod.fst) := by
  apply map_filterMap_sublist
  intro e b hfb
  cases hv : jAsObj e.2 with
  | none =>
    simp only [cleanup_expired_clock_entries, hv] at hfb
    exact Option.noConfusion hfb
  | some ps =>
    simp only [cleanup_expired_clock_entries, hv] at hfb
    by_cases hkE : (ps.filter fun q => recordActive nowMs q.2).isEmpty
    · rw [if_pos hkE] at hfb
      exact Option.noConfusion hfb
    · rw [if_neg hkE] at hfb
      injection hfb with h4
      rw [← h4]

theorem cleanup_length_le (nowMs : ℚ) (cu : List (String × JValue)) :
    (cleanup_expired_clock_entries nowMs cu).length ≤ cu.length :=
  List.length_filterMap_le _ _

theorem lookup_filter {β : Type} {g : β → Bool} {pid : String} {p : β} :
    ∀ {ps : List (String × β)}, (ps.map Prod.fst).Nodup →
      ((ps.filter fun q => g q.2).lookup pid = some p ↔ ps.lookup pid = some p ∧ g p = true) := by
  intro ps
  induction ps with
  | nil => intro _; simp [List.lookup]
  | cons e rest ih =>
    intro hnd
    obtain ⟨a, b⟩ := e
    simp only [List.map_cons, List.nodup_cons] at hnd
    obtain ⟨hna, hndr⟩ := hnd
    by_cases hk : pid = a
    · subst hk
      by_cases hg : g b
      · rw [List.filter_cons_of_pos (by simpa using hg), lookup_cons_self, lookup_cons_self]
        constructor
        · intro h1
          injection h1 with h1
          exact ⟨by rw [h1], by rw [← h1]; exact hg⟩
        · rintro ⟨h1, _⟩
          exact h1
      · rw [List.filter_cons_of_neg (by simpa using hg), lookup_cons_self]
        have hkeys : pid ∉ (rest.filter fun q => g q.2).map Prod.fst := by
          intro hmem
          exact hna (((rest.filter_sublist).map Prod.fst).subset hmem)
        rw [lookup_eq_none_of_not_mem_keys hkeys]
        constructor
        · intro h1
          exact Option.noConfusion h1
        · rintro ⟨h1, h2⟩
          injection h1 with h1
          rw [← h1] at h2
          exact absurd h2 (by simpa using hg)
    · by_cases hg : g b
      · rw [List.filter_cons_of_pos (by simpa using hg), lookup_cons_ne hk, lookup_cons_ne hk]
        exact ih hndr
      · rw [List.filter_cons_of_neg (by simpa using hg), lookup_cons_ne hk]
        exact ih hndr

theorem cleanup_lookupRecord (nowMs : ℚ) (u pid : String) (p : JValue) :
    ∀ cu : List (String × JValue),
      (cu.map Prod.fst).Nodup →
      (∀ w ps, (w, JValue.obj ps) ∈ cu → (ps.map Prod.fst).Nodup) →
      (lookupRecord (cleanup_expired_clock_entries nowMs cu) u pid = some p
        ↔ lookupRecord cu u pid = some p ∧ recordActive nowMs p = true) := by
  intro cu
  induction cu with
  | nil =>
    intro _ _
    simp [lookupRecord, cleanup_expired_clock_entries, List.lookup]
  | cons e rest ih =>
    intro hnd hinner
    obtain ⟨a, v⟩ := e
    simp only [List.map_cons, List.nodup_cons] at hnd
    obtain ⟨hna, hndr⟩ := hnd
    have ihr := ih hndr (fun w ps hm => hinner w ps (List.mem_cons_of_mem _ hm))
    have hLnone : u = a →
        lookupRecord (cleanup_expired_clock_entries nowMs rest) u pid = none := by
      rintro rfl
      have hkeys : u ∉ (cleanup_expired_clock_entries nowMs rest).map Prod.fst :=
        fun hmem => hna ((cleanup_keys_sublist nowMs rest).subset hmem)
      simp [lookupRecord, lookup_eq_none_of_not_mem_keys hkeys]
    cases hv : jAsObj v with
    | none =>
      have hclean : cleanup_expired_clock_entries nowMs ((a, v) :: rest)
          = cleanup_expired_clock_entries nowMs rest := by
        simp [cleanup_expired_clock_entries, List.filterMap_cons, hv]
      rw [hclean]
      by_cases hu : u = a
      · subst hu
        rw [hLnone rfl]
        have hr : lookupRecord ((u, v) :: rest) u pid = none := by
          simp [lookupRecord, lookup_cons_self, hv]
        rw [hr]
        simp
      · have hr : lookupRecord ((a, v) :: rest) u pid = lookupRecord rest u pid := by
          simp [lookupRecord, lookup_cons_ne hu]
        rw [hr]
        exact ihr
    | some ps =>
      have hvv : v = JValue.obj ps := jAsObj_eq_some.mp hv
      by_cases hkE : (ps.filter fun q => recordActive nowMs q.2).isEmpty
      · have hclean : cleanup_expired_clock_entries nowMs ((a, v) :: rest)
            = cleanup_expired_clock_entries nowMs rest := by
          simp [cleanup_expired_clock_entries, List.filterMap_cons, hv, hkE]
        rw [hclean]
        by_cases hu : u = a
        · subst hu
          rw [hLnone rfl]
          have hr : lookupRecord ((u, v) :: rest) u pid = ps.lookup pid := by
            simp [lookupRecord, lookup_cons_self, hv]
          rw [hr]
          constructor
          · intro h1
            exact absurd h1 (by simp)
          · rintro ⟨hlk, hact⟩
            have hmemf : (pid, p) ∈ ps.filter fun q => recordActive nowMs q.2 :=
              List.mem_filter.mpr ⟨mem_of_lookup_eq_some hlk, hact⟩
            rw [List.isEmpty_iff.mp hkE] at hmemf
            cases hmemf
        · have hr : lookupRecord ((a, v) :: rest) u pid = lookupRecord rest u pid := by
            simp [lookupRecord, lookup_cons_ne hu]
          rw [hr]
          exact ihr
      · have hclean : cleanup_expired_clock_entries nowMs ((a, v) :: rest)
            = (a, JValue.obj (ps.filter fun q => recordActive nowMs q.2))
              :: cleanup_expired_clock_entries nowMs rest := by
          simp [cleanup_expired_clock_entries, List.filterMap_cons, hv, hkE]
        rw [hclean]
        by_cases hu : u = a
        · subst hu
          have hL : lookupRecord ((u, JValue.obj (ps.filter fun q => recordActive nowMs q.2))
              :: cleanup_expired_clock_entries nowMs rest) u pid
              = (ps.filter fun q => recordActive nowMs q.2).lookup pid := by
            simp [lookupRecord, lookup_cons_self, jAsObj]
          have hr : lookupRecord ((u, v) :: rest) u pid = ps.lookup pid := by
            simp [lookupRecord, lookup_cons_self, hv]
          rw [hL, hr]
          exact lookup_filter (hinner u ps (by rw [hvv]; exact List.mem_cons_self _ _))
        · have hL : lookupRecord ((a, JValue.obj (ps.filter fun q => recordActive nowMs q.2))
              :: cleanup_expired_clock_entries nowMs rest) u pid
              = lookupRecord (cleanup_expired_clock_entries nowMs rest) u pid := by
            simp [lookupRecord, lookup_cons_ne hu]
          have hr : lookupRecord ((a, v) :: rest) u pid = lookupRecord rest u pid := by
            simp [lookupRecord, lookup_cons_ne hu]
          rw [hL, hr]
          exact ihr

theorem cleanup_lookup_obj (nowMs : ℚ) (cu : List (String × JValue)) (u : String) (v : JValue)
    (h : (cleanup_expired_clock_entries nowMs cu).lookup u = some v) :
    ∃ ps, v = JValue.obj ps ∧ ps ≠ [] ∧ ∀ q ∈ ps, recordActive nowMs q.2 = true := by
  obtain ⟨e, hecu, hfe⟩ := List.mem_filterMap.mp (mem_of_lookup_eq_some h)
  cases hv : jAsObj e.2 with
  | none =>
    simp only [hv] at hfe
    exact Option.noConfusion hfe
  | some ps =>
    simp only [hv] at hfe
    by_cases hkE : (ps.filter fun q => recordActive nowMs q.2).isEmpty
    · rw [if_pos hkE] at hfe
      exact Option.noConfusion hfe
    · rw [if_neg hkE] at hfe
      injection hfe with hp
      have hv2 : v = JValue.obj (ps.filter fun q => recordActive nowMs q.2) := by
        have h2 := congrArg Prod.snd hp
        simpa using h2.symm
      refine ⟨_, hv2, ?_, ?_⟩
      · intro h0
        apply hkE
        rw [h0]
        rfl
      · intro q hq
        exact (List.mem_filter.mp hq).2

theorem cleanup_eq_of_not_modified (nowMs : ℚ) :
    ∀ cu : List (String × JValue), clockCleanupModified nowMs cu = false →
      cleanup_expired_clock_entries nowMs cu = cu := by
  intro cu
  induction cu with
  | nil => intro _; rfl
  | cons e rest ih =>
    intro hmod
    obtain ⟨a, v⟩ := e
    cases hv : jAsObj v with
    | none =>
      simp only [clockCleanupModified, List.any_cons, hv, Bool.true_or] at hmod
      exact Bool.noConfusion hmod
    | some ps =>
      simp only [clockCleanupModified, List.any_cons, hv, Bool.or_eq_false_iff] at hmod
      obtain ⟨⟨hany, hkE⟩, hrest⟩ := hmod
      have hall : ∀ q ∈ ps, recordActive nowMs q.2 = true := by
        intro q hq
        have hq2 := List.any_eq_false.mp hany q hq
        simpa using hq2
      have hfilter : (ps.filter fun q => recordActive nowMs q.2) = ps :=
        List.filter_eq_self.mpr hall
      have hvv : v = JValue.obj ps := jAsObj_eq_some.mp hv
      have hih := ih hrest
      have hclean : cleanup_expired_clock_entries nowMs ((a, v) :: rest)
          = (a, JValue.obj (ps.filter fun q => recordActive nowMs q.2))
            :: cleanup_expired_clock_entries nowMs rest := by
        simp [cleanup_expired_clock_entries, List.filterMap_cons, hv, hkE]
      rw [hclean, hfilter, ← hvv, hih]

theorem cleanup_modified_iff (nowMs : ℚ) (cu : List (String × JValue)) :
    clockCleanupModified nowMs cu = true ↔ cleanup_expired_clock_entries nowMs cu ≠ cu := by
  constructor
  · induction cu with
    | nil => intro h; simp [clockCleanupModified] at h
    | cons e rest ih =>
      intro hmod
      obtain ⟨a, v⟩ := e
      cases hv : jAsObj v with
      | none =>
        have hclean : cleanup_expired_clock_entries nowMs ((a, v) :: rest)
            = cleanup_expired_clock_entries nowMs rest := by
          simp [cleanup_expired_clock_entries, List.filterMap_cons, hv]
        rw [hclean]
        intro heq
        have hlen := congrArg List.length heq
        have hle := cleanup_length_le nowMs rest
        simp only [List.length_cons] at hlen
        omega
      | some ps =>
        by_cases hkE : (ps.filter fun q => recordActive nowMs q.2).isEmpty
        · have hclean : cleanup_expired_clock_entries nowMs ((a, v) :: rest)
              = cleanup_expired_clock_entries nowMs rest := by
            simp [cleanup_expired_clock_entries, List.filterMap_cons, hv, hkE]
          rw [hclean]
          intro heq
          have hlen := congrArg List.length heq
          have hle := cleanup_length_le nowMs rest
          simp only [List.length_cons] at hlen
          omega
        · have hkE2 : (ps.filter fun q => recordActive nowMs q.2).isEmpty = false :=
            eq_false_of_ne_true hkE
          have hclean : cleanup_expired_clock_entries nowMs ((a, v) :: rest)
              = (a, JValue.obj (ps.filter fun q => recordActive nowMs q.2))
                :: cleanup_expired_clock_entries nowMs rest := by
            simp [cleanup_expired_clock_entries, List.filterMap_cons, hv, hkE2]
          have hvv : v = JValue.obj ps := jAsObj_eq_some.mp hv
          simp only [clockCleanupModified, List.any_cons, Bool.or_eq_true, hv] at hmod
          rcases hmod with (hany | hemp) | hrest
          · rw [hclean]
            intro heq
            injection heq with h1 h2
            have h1v := congrArg Prod.snd h1
            rw [hvv] at h1v
            have hfeq : (ps.filter fun q => recordActive nowMs q.2) = ps := by
              injection h1v with h1v2
            obtain ⟨q, hq, hnq⟩ := List.any_eq_true.mp hany
            have hact := List.filter_eq_self.mp hfeq q hq
            rw [hact] at hnq
            exact absurd hnq (by simp)
          · rw [hkE2] at hemp
            exact absurd hemp (by simp)
          · rw [hclean]
            intro heq
            injection heq with h1 h2
            exact (ih hrest) h2
  · intro hne
    cases hBool : clockCleanupModified nowMs cu with
    | false => exact absurd (cleanup_eq_of_not_modified nowMs cu hBool) hne
    | true => rfl

theorem is_clock_used_valid (nowMs : ℚ) (cu : List (String × JValue)) (u pid : String)
    (ps kvs : List (String × JValue)) (e : ℚ)
    (hlk : cu.lookup u = some (JValue.obj ps))
    (hp : ps.lookup pid = some (JValue.obj kvs))
    (hend : (kvs.lookup "end_timestamp").bind JValue.asNum = some e) :
    (is_clock_used nowMs cu u pid = true ↔ nowMs < e) := by
  simp [is_clock_used, hlk, jAsObj, hp, recordEndTs, hend, decide_eq_true_iff]

/-- C6: an `is_clock_used` query on a structurally valid record returns
exactly `now < end_timestamp`; the cleanup pass keeps a record iff it is
structurally valid and unexpired, its surviving per-uuid values are non-empty
dicts of active records only (empty parents are removed), and the store is
persisted iff the cleanup changed it. -/
theorem c6_ledger_invariant (nowMs : ℚ) (cu : List (String × JValue))
    (hnd : (cu.map Prod.fst).Nodup)
    (hinner : ∀ w ps, (w, JValue.obj ps) ∈ cu → (ps.map Prod.fst).Nodup) :
    (∀ u pid ps kvs e, cu.lookup u = some (JValue.obj ps) →
        ps.lookup pid = some (JValue.obj kvs) →
        (kvs.lookup "end_timestamp").bind JValue.asNum = some e →
        (∃ s, kvs.lookup "profile_name" = some (JValue.str s)) →
        (is_clock_used nowMs cu u pid = true ↔ nowMs < e))
    ∧ (∀ u pid p, lookupRecord (cleanup_expired_clock_entries nowMs cu) u pid = some p
        ↔ lookupRecord cu u pid = some p ∧ recordActive nowMs p = true)
    ∧ (∀ u v, (cleanup_expired_clock_entries nowMs cu).lookup u = some v →
        ∃ ps, v = JValue.obj ps ∧ ps ≠ [] ∧ ∀ q ∈ ps, recordActive nowMs q.2 = true)
    ∧ (clockCleanupModified nowMs cu = true ↔ cleanup_expired_clock_entries nowMs cu ≠ cu) := by
  refine ⟨?_, ?_, ?_, cleanup_modified_iff nowMs cu⟩
  · intro u pid ps kvs e hlk hp hend _hname
    exact is_clock_used_valid nowMs cu u pid ps kvs e hlk hp hend
  · intro u pid p
    exact cleanup_lookupRecord nowMs u pid p cu hnd hinner
  · intro u v h
    exact cleanup_lookup_obj nowMs cu u v h

/-- Witness for C6: a ledger with one valid active record and one invalid
record (missing `profile_name`); the buff is active iff `500 < 1000`, and the
cleanup pass counts as a modification (it drops the invalid record). -/
theorem c6_witness :
    (is_clock_used 500
        [("aaaa", JValue.obj
          [("p-1", JValue.obj
            [("profile_name", JValue.str "Apple"), ("end_timestamp", JValue.num 1000)]),
           ("p-2", JValue.obj [("end_timestamp", JValue.num 5)])])]
        "aaaa" "p-1" = true ↔ (500 : ℚ) < 1000)
    ∧ clockCleanupModified 500
        [("aaaa", JValue.obj
          [("p-1", JValue.obj
            [("profile_name", JValue.str "Apple"), ("end_timestamp", JValue.num 1000)]),
           ("p-2", JValue.obj [("end_timestamp", JValue.num 5)])])] = true := by
  constructor
  · exact (c6_ledger_invariant 500
      [("aaaa", JValue.obj
        [("p-1", JValue.obj
          [("profile_name", JValue.str "Apple"), ("end_timestamp", JValue.num 1000)]),
         ("p-2", JValue.obj [("end_timestamp", JValue.num 5)])])]
      (by decide)
      (by
        intro w ps hm
        rw [List.mem_singleton, Prod.mk.injEq] at hm
        obtain ⟨-, h2⟩ := hm
        injection h2 with h3
        subst h3
        decide)).1
      "aaaa" "p-1" _ _ 1000 rfl rfl rfl ⟨"Apple", rfl⟩
  · rfl

end ForgeBot
